import Mathlib

/-!
Verification of the browser-side video composition engine
(src/services/videoProcessor.ts) against its design specification.

The numeric core (duration allocation, output geometry, crossfade-offset
accumulation) is embedded over `ℚ` (JavaScript numbers idealized as exact
rationals); the effectful body of `composeVideos` is embedded as a script
of engine steps executed against a failure-injection oracle, yielding the
event trace and the terminal success/error outcome.
-/

namespace VideoProcessor

/-- JavaScript `Math.round`: round to the nearest integer, halves toward
positive infinity. -/
def jsRound (q : ℚ) : ℤ := ⌊q + 1/2⌋

/-- Composition settings, mirroring `CompositionSettings` in src/types.ts
(numeric fields modelled as rationals). -/
structure CompositionSettings where
  transition_type : String
  transition_duration : ℚ
  target_duration : ℚ
  output_width : ℚ
  output_height : ℚ

/-- The running total `originalDurations.reduce((a, b) => a + b, 0)`
(src/services/videoProcessor.ts, line 154). -/
def totalOriginalOf (l : List ℚ) : ℚ := l.foldl (· + ·) 0

/-- Function `calculateClipDurations` (src/services/videoProcessor.ts, lines 144-168):
distribute `targetDuration + (n-1)*transitionDuration` across the clips,
proportionally to each clip's share of the total original duration, capping
each result by the clip's original duration and then flooring it at 1.5 s. -/
def calculateClipDurations (originalDurations : List ℚ)
    (targetDuration transitionDuration : ℚ) : List ℚ :=
  let n := originalDurations.length
  if n = 0 then []
  else
    let totalTransitionTime : ℚ := ((n : ℚ) - 1) * transitionDuration
    let availableTime := targetDuration + totalTransitionTime
    let totalOriginal := totalOriginalOf originalDurations
    if totalOriginal ≤ 0 then
      originalDurations.map (fun _ => availableTime / (n : ℚ))
    else
      originalDurations.map (fun dur =>
        let share := dur / totalOriginal
        let clipDur := share * availableTime
        let clipDurCapped := min clipDur dur
        let clipDurFloored := max clipDurCapped 1.5
        clipDurFloored)

/-- Constant `TRANSITION_MAP` (src/services/videoProcessor.ts, lines 173-184):
logical transition ids to FFmpeg `xfade` transition names. -/
def TRANSITION_MAP : List (String × String) :=
  [("fade", "fade"),
   ("dissolve", "dissolve"),
   ("wipe_left", "wipeleft"),
   ("wipe_right", "wiperight"),
   ("wipe_up", "wipeup"),
   ("wipe_down", "wipedown"),
   ("slide_left", "slideleft"),
   ("slide_right", "slideright"),
   ("zoom_in", "squeezev"),
   ("none", "fade")]

/-- Lookup `TRANSITION_MAP[settings.transition_type] || "fade"`
(src/services/videoProcessor.ts, line 203). -/
def resolveTransition (id : String) : String :=
  (TRANSITION_MAP.lookup id).getD "fade"

/-- The output geometry actually used by the render
(src/services/videoProcessor.ts, lines 205-210):
`outW = min(output_width, 720)`;
`outH = min(output_height, round(720 / output_width * output_height))`. -/
def outputResolution (output_width output_height : ℚ) : ℚ × ℚ :=
  (min output_width 720,
   min output_height ((jsRound (720 / output_width * output_height) : ℤ) : ℚ))

/-- The offset-accumulation loop of the crossfade chain
(src/services/videoProcessor.ts, lines 281-287): for each consumed duration
`d`, `offset += d - td; offset = max(0, offset)`, emitting each offset. -/
def chainOffsetsAux (offset td : ℚ) : List ℚ → List ℚ
  | [] => []
  | d :: rest =>
    let offset2 := max 0 (offset + d - td)
    offset2 :: chainOffsetsAux offset2 td rest

/-- The timeline offsets of the crossfade chain built by `composeVideos`
(src/services/videoProcessor.ts, lines 271-288): first offset
`max(0, C[0] - td)`, then one accumulated offset per clip index `2..n-1`,
consuming durations `C[1..n-2]`. -/
def xfadeOffsets (realDurations : List ℚ) (td : ℚ) : List ℚ :=
  match realDurations with
  | [] => []
  | [_] => []
  | d0 :: rest =>
    let offset := max 0 (d0 - td)
    offset :: chainOffsetsAux offset td rest.dropLast

/-- One `xfade` node of the `filter_complex` chain: its transition name,
duration and timeline offset (the typed form of
`xfade=transition=T:duration=D:offset=O`). -/
structure XfadeNode where
  transition : String
  duration : ℚ
  offset : ℚ

/-- The crossfade chain as typed nodes, one per `xfade` filter emitted by
`composeVideos` (src/services/videoProcessor.ts, lines 271-288). -/
def buildFilterChain (realDurations : List ℚ) (td : ℚ) (ffTransition : String) :
    List XfadeNode :=
  (xfadeOffsets realDurations td).map (fun o => ⟨ffTransition, td, o⟩)

/-! Trace model of the effectful body of `composeVideos`.

The engine calls of `composeVideos` (src/services/videoProcessor.ts,
lines 190-331) are modelled as a script of steps executed against a
failure oracle `fails : VPEvent → Bool` saying which engine invocations
throw. `emit` is an infallible progress callback; `attempt` is an awaited
engine call whose exception aborts the whole run at that point (no
`finally` block exists in the source); `tryGroup` is one `try { ... }
catch {}` block: its calls run in order, stop at the first failure, and
the failure is swallowed. The model covers the fresh-load path of the
lazily initialized engine singleton (an already-loaded engine merely skips
the three pct-8 callbacks of `loadFFmpeg`). -/

/-- One observable engine-level effect of a composition run. -/
inductive VPEvent where
  | progress (pct : ℤ) (msg : String)
  | loadEngine
  | writeInput (i : Nat)
  | execNormalize (i : Nat) (dur : ℚ)
  | execCopy
  | execRender (chain : List XfadeNode)
  | readOutput
  | deleteInput (i : Nat)
  | deleteNorm (i : Nat)
  | deleteOutput

/-- Terminal error of a composition run. -/
inductive VPError where
  | invalidInput (msg : String)
  | engineFailure (e : VPEvent)

/-- One step of the composition control flow. -/
inductive EngineStep where
  | emit (e : VPEvent)
  | attempt (e : VPEvent)
  | tryGroup (es : List VPEvent)

/-- The calls a `try { ... } catch {}` block attempts: all of them in
order up to and including the first failing one. -/
def takeUntilFail (fails : VPEvent → Bool) : List VPEvent → List VPEvent
  | [] => []
  | e :: es => if fails e then [e] else e :: takeUntilFail fails es

/-- Run a list of steps against a failure oracle: the trace of attempted
events paired with the run's error, if any. -/
def runSteps (fails : VPEvent → Bool) : List EngineStep → List VPEvent × Option VPError
  | [] => ([], none)
  | .emit e :: rest =>
    let r := runSteps fails rest
    (e :: r.1, r.2)
  | .attempt e :: rest =>
    if fails e then ([e], some (.engineFailure e))
    else
      let r := runSteps fails rest
      (e :: r.1, r.2)
  | .tryGroup es :: rest =>
    let r := runSteps fails rest
    (takeUntilFail fails es ++ r.1, r.2)

/-- The step script of `composeVideos` for `n` clips
(src/services/videoProcessor.ts, lines 199-326), after the clip-count
guards have passed. -/
def composeScript (n : Nat) (durations : List ℚ) (settings : CompositionSettings) :
    List EngineStep :=
  let td := settings.transition_duration
  let ffTransition := resolveTransition settings.transition_type
  let clipDurations := calculateClipDurations durations settings.target_duration td
  [.emit (.progress 5 "Inicializando motor de vídeo..."),
   .emit (.progress 8 "Carregando motor de vídeo..."),
   .emit (.progress 8 "Baixando FFmpeg WebAssembly..."),
   .attempt .loadEngine,
   .emit (.progress 8 "Motor de vídeo pronto!"),
   .emit (.progress 10 "Carregando vídeos na memória...")]
  ++ (List.range n).flatMap (fun i =>
      [.attempt (.writeInput i),
       .emit (.progress (10 + jsRound ((i : ℚ) / (n : ℚ) * 15))
         ("Carregando vídeo " ++ toString (i + 1) ++ " de " ++ toString n ++ "..."))])
  ++ [.emit (.progress 25 "Normalizando vídeos...")]
  ++ (List.range n).flatMap (fun i =>
      [.attempt (.execNormalize i (clipDurations.getD i 0)),
       .emit (.progress (25 + jsRound ((i : ℚ) / (n : ℚ) * 30))
         ("Normalizando vídeo " ++ toString (i + 1) ++ " de " ++ toString n ++ "..."))])
  ++ [.emit (.progress 60 "Aplicando transições...")]
  ++ (if n = 1 then
        [.attempt .execCopy]
      else
        [.emit (.progress 70 "Renderizando vídeo final..."),
         .attempt (.execRender (buildFilterChain clipDurations td ffTransition))])
  ++ [.emit (.progress 90 "Finalizando...")]
  ++ [.attempt .readOutput]
  ++ (List.range n).flatMap (fun i => [.tryGroup [.deleteInput i, .deleteNorm i]])
  ++ [.tryGroup [.deleteOutput]]
  ++ [.emit (.progress 100 "Concluído!")]

/-- Function `composeVideos` (src/services/videoProcessor.ts, lines 190-331) as a
trace semantics: the clip-count guards, then the engine script. -/
def composeVideos (n : Nat) (durations : List ℚ) (settings : CompositionSettings)
    (fails : VPEvent → Bool) : List VPEvent × Option VPError :=
  if n = 0 then ([], some (.invalidInput "Nenhum vídeo fornecido"))
  else if 10 < n then ([], some (.invalidInput "Máximo de 10 vídeos"))
  else runSteps fails (composeScript n durations settings)

/-- The percent component of a progress event. -/
def progressOf : VPEvent → Option ℤ
  | .progress pct _ => some pct
  | _ => none

/-- The percent values passed to the progress callback along a trace. -/
def percentsOf (trace : List VPEvent) : List ℤ := trace.filterMap progressOf

/-- Is the event the deletion of an artifact? -/
def isDeleteEvent : VPEvent → Bool
  | .deleteInput _ => true
  | .deleteNorm _ => true
  | .deleteOutput => true
  | _ => false

/-- The events one step contributes to the trace of a run that is not
aborted at or before this step. -/
def stepTrace (fails : VPEvent → Bool) : EngineStep → List VPEvent
  | .emit e => [e]
  | .attempt e => [e]
  | .tryGroup es => takeUntilFail fails es

/-- Failure oracle injecting no failures. -/
def failNone : VPEvent → Bool := fun _ => false

/-- Failure oracle failing exactly the final render invocation. -/
def failRender : VPEvent → Bool := fun e =>
  match e with
  | .execRender _ => true
  | _ => false

/-- The percent values of the per-clip loading stage. -/
def loadPercents (n : Nat) : List ℤ :=
  (List.range n).map (fun (i : ℕ) => 10 + jsRound ((i : ℚ) / (n : ℚ) * 15))

/-- The percent values of the per-clip normalization stage. -/
def normPercents (n : Nat) : List ℤ :=
  (List.range n).map (fun (i : ℕ) => 25 + jsRound ((i : ℚ) / (n : ℚ) * 30))

/-- The full percent sequence of a successful `n`-clip run. -/
def fullPercents (n : Nat) : List ℤ :=
  [5, 8, 8, 8, 10]
  ++ loadPercents n
  ++ [25]
  ++ normPercents n
  ++ [60]
  ++ (if n = 1 then [] else [70])
  ++ [90, 100]

/-- A concrete settings record used by the witnesses. -/
def demoSettings : CompositionSettings :=
  ⟨"fade", 1/2, 30, 1280, 720⟩

/-! Theorems. -/

/-- Helper: the offset-accumulation loop is monotone when every consumed
duration is at least the transition duration. -/
lemma chainOffsetsAux_chain' (t : ℚ) (durs : List ℚ) (off : ℚ)
    (hoff : 0 ≤ off) (hd : ∀ d ∈ durs, t ≤ d) :
    List.Chain' (· ≤ ·) (off :: chainOffsetsAux off t durs) := by
  induction durs generalizing off with
  | nil => simp [chainOffsetsAux]
  | cons d rest ih =>
    have htd : t ≤ d := hd d (by simp)
    have hle : off ≤ max 0 (off + d - t) :=
      le_trans (by linarith) (le_max_right 0 (off + d - t))
    refine List.chain'_cons.mpr ⟨hle, ?_⟩
    simpa [chainOffsetsAux] using
      ih (max 0 (off + d - t)) (le_max_left 0 (off + d - t))
        (fun x hx => hd x (by simp [hx]))

/-- C1: as stated the claim fails: on the single positive original
duration `D = [1]` (valid clip count 1, positive total) the allocator
returns `1.5`, which exceeds the original duration `D[0] = 1`; the 1.5 s
floor overrides the original-duration ceiling. -/
theorem allocatedDurations_ceiling_counterexample :
    calculateClipDurations [1] 10 (1/2) = [1.5] ∧ ¬ ((1.5 : ℚ) ≤ 1) := by
  constructor
  · simp [calculateClipDurations, totalOriginalOf]
    norm_num [min_def, max_def]
  · norm_num

/-- C1 (amended): for every clip list of valid size n ∈ [1,10] with positive
original durations and positive total, each allocated duration `C[i]`
satisfies `1.5 ≤ C[i] ≤ max D[i] 1.5` — the proportional share is capped by
the original duration and then floored at 1.5, the floor taking precedence
when `D[i] < 1.5`. -/
theorem allocatedDurations_bounds (D : List ℚ) (T t : ℚ)
    (hn1 : 1 ≤ D.length) (_hn10 : D.length ≤ 10)
    (_hpos : ∀ d ∈ D, 0 < d) (htot : 0 < totalOriginalOf D) :
    List.Forall₂ (fun c d => 1.5 ≤ c ∧ c ≤ max d 1.5)
      (calculateClipDurations D T t) D := by
  have h0 : ¬ (D.length = 0) := by omega
  simp only [calculateClipDurations, h0, if_false, not_le.mpr htot]
  rw [List.forall₂_map_left_iff, List.forall₂_same]
  intro d _
  exact ⟨le_max_right _ _, max_le_max (min_le_right _ _) le_rfl⟩

/-- Witness for the amended C1 at the spec's concrete scenario. -/
theorem allocatedDurations_bounds_witness :
    List.Forall₂ (fun c d => 1.5 ≤ c ∧ c ≤ max d 1.5)
      (calculateClipDurations [10, 8, 12] 30 (1/2)) [10, 8, 12] :=
  allocatedDurations_bounds [10, 8, 12] 30 (1/2) (by simp) (by simp)
    (by intro d hd; simp at hd; rcases hd with h | h | h <;> norm_num [h])
    (by norm_num [totalOriginalOf])

/-- C2: on original durations `[10, 8, 12]` with target duration 30 and
transition duration 0.5 the allocator returns exactly `[10, 8, 12]`, and the
crossfade chain built from these durations has offsets exactly `9.5` and
`17`. -/
theorem concreteScenario_allocation_offsets :
    calculateClipDurations [10, 8, 12] 30 (1/2) = [10, 8, 12] ∧
    xfadeOffsets (calculateClipDurations [10, 8, 12] 30 (1/2)) (1/2) =
      [19/2, 17] := by
  have h : calculateClipDurations [10, 8, 12] 30 (1/2) = [10, 8, 12] := by
    simp [calculateClipDurations, totalOriginalOf]
    norm_num [min_def, max_def]
  refine ⟨h, ?_⟩
  rw [h]
  simp only [xfadeOffsets, chainOffsetsAux, List.dropLast]
  norm_num [max_def]

/-- C3: as stated the claim fails: with allocated durations `[5, 1.5, 1.5]`
(three clips) and transition duration `3`, the chain offsets are `[2, 1/2]`,
which decrease. -/
theorem chainOffsets_not_monotone_counterexample :
    ¬ List.Chain' (· ≤ ·) (xfadeOffsets [5, 1.5, 1.5] 3) := by
  have h : xfadeOffsets [5, 1.5, 1.5] 3 = [2, 1/2] := by
    simp only [xfadeOffsets, chainOffsetsAux, List.dropLast]
    norm_num [max_def]
  rw [h]
  norm_num [List.chain'_cons]

/-- C3 (amended): for n ≥ 3 clips, if every allocated duration is at least
the transition duration `t`, the crossfade offsets are monotonically
non-decreasing along the chain. -/
theorem chainOffsets_monotone_amended (C : List ℚ) (t : ℚ)
    (h3 : 3 ≤ C.length) (ht : ∀ c ∈ C, t ≤ c) :
    List.Chain' (· ≤ ·) (xfadeOffsets C t) := by
  cases C with
  | nil => simp at h3
  | cons c0 rest =>
    cases rest with
    | nil => simp at h3
    | cons c1 rest' =>
      simp only [xfadeOffsets]
      apply chainOffsetsAux_chain'
      · exact le_max_left _ _
      · intro d hd
        have hmem : d ∈ c1 :: rest' := (List.dropLast_sublist (c1 :: rest')).subset hd
        exact ht d (by simp [hmem])

/-- Witness for the amended C3 at the spec's concrete scenario. -/
theorem chainOffsets_monotone_amended_witness :
    List.Chain' (· ≤ ·) (xfadeOffsets [10, 8, 12] (1/2)) :=
  chainOffsets_monotone_amended [10, 8, 12] (1/2) (by simp)
    (by intro c hc; simp at hc; rcases hc with h | h | h <;> norm_num [h])

/-- C4: as stated the claim fails: for the requested portrait geometry
720×1280 the render uses 720×1280, whose long edge is 1280 > 720 — only the
width is capped at 720. -/
theorem outputResolution_longEdge_counterexample :
    outputResolution 720 1280 = (720, 1280) ∧
    ¬ (max (outputResolution 720 1280).1 (outputResolution 720 1280).2 ≤ 720) := by
  have h : outputResolution 720 1280 = (720, 1280) := by
    simp only [outputResolution, jsRound]
    norm_num [min_def, Int.floor_eq_iff]
  rw [h]
  norm_num [h, max_def]

/-- C4 (amended): the used width never exceeds 720 for any requested
geometry; for requests whose height does not exceed their (positive) width,
the long edge of the used resolution never exceeds 720. (For portrait
requests the used height may exceed 720: only the width is capped.) -/
theorem outputResolution_caps_amended (w h : ℚ) :
    (outputResolution w h).1 ≤ 720 ∧
    (0 < w → h ≤ w →
      max (outputResolution w h).1 (outputResolution w h).2 ≤ 720) := by
  refine ⟨min_le_right _ _, ?_⟩
  intro hw hhw
  apply max_le (min_le_right _ _)
  apply le_trans (min_le_right _ _)
  have hx : 720 / w * h ≤ 720 := by
    have heq : 720 / w * h = 720 * (h / w) := by ring
    have h1 : h / w ≤ 1 := (div_le_one hw).mpr hhw
    rw [heq]
    linarith
  have hfl : jsRound (720 / w * h) < 721 := by
    apply Int.floor_lt.mpr
    push_cast
    linarith
  have hle : jsRound (720 / w * h) ≤ 720 := by omega
  exact_mod_cast hle

/-- Witness for the amended C4 at the landscape request 720×480. -/
theorem outputResolution_caps_amended_witness :
    (outputResolution 720 480).1 ≤ 720 ∧
    max (outputResolution 720 480).1 (outputResolution 720 480).2 ≤ 720 :=
  ⟨(outputResolution_caps_amended 720 480).1,
   (outputResolution_caps_amended 720 480).2 (by norm_num) (by norm_num)⟩

/-- C5: with exactly two clips the chain consists of exactly one crossfade
node, whose timeline offset is `max 0 (C[0] - t)`. -/
theorem twoClip_chain_single_node (c0 c1 t : ℚ) (name : String) :
    buildFilterChain [c0, c1] t name = [⟨name, t, max 0 (c0 - t)⟩] := rfl

/-- C6: the id `none` and every id absent from the transition map resolve to
the same engine filter name as `fade`, so the filter chain built from such
an id equals the one built for `fade`, all other inputs equal. -/
theorem transition_none_unknown_as_fade (rd : List ℚ) (td : ℚ) (id : String)
    (h : id = "none" ∨ TRANSITION_MAP.lookup id = none) :
    resolveTransition id = resolveTransition "fade" ∧
    buildFilterChain rd td (resolveTransition id) =
      buildFilterChain rd td (resolveTransition "fade") := by
  have hres : resolveTransition id = resolveTransition "fade" := by
    rcases h with rfl | h
    · rfl
    · simp only [resolveTransition, h, Option.getD]
      rfl
  exact ⟨hres, by rw [hres]⟩

/-- Witness for C6 at the unlisted id `zoom_out`. -/
theorem transition_none_unknown_as_fade_witness :
    resolveTransition "zoom_out" = resolveTransition "fade" ∧
    buildFilterChain [10, 8] (1/2) (resolveTransition "zoom_out") =
      buildFilterChain [10, 8] (1/2) (resolveTransition "fade") :=
  transition_none_unknown_as_fade [10, 8] (1/2) "zoom_out" (Or.inr rfl)

/-- C10: for every duration list with positive total original duration the
allocator preserves the list length and every allocated duration is at
least 1.5 s (also when the original duration is below 1.5 s). -/
theorem allocator_floor_and_length (D : List ℚ) (T t : ℚ)
    (hne : D ≠ []) (htot : 0 < totalOriginalOf D) :
    (calculateClipDurations D T t).length = D.length ∧
    ∀ c ∈ calculateClipDurations D T t, 1.5 ≤ c := by
  have h0 : ¬ (D.length = 0) := by simpa using hne
  constructor
  · simp [calculateClipDurations, h0, not_le.mpr htot]
  · intro c hc
    simp only [calculateClipDurations, h0, if_false, not_le.mpr htot,
      List.mem_map] at hc
    obtain ⟨d, _, rfl⟩ := hc
    exact le_max_right _ _

/-- Witness for C10 on a list containing a sub-1.5 s clip. -/
theorem allocator_floor_and_length_witness :
    (calculateClipDurations [1, 2] 5 (1/2)).length = 2 ∧
    ∀ c ∈ calculateClipDurations [1, 2] 5 (1/2), (1.5 : ℚ) ≤ c :=
  allocator_floor_and_length [1, 2] 5 (1/2) (by simp)
    (by norm_num [totalOriginalOf])

/-- On a successful run the trace is the concatenation of every step's
contribution. -/
lemma runSteps_success_trace (fails : VPEvent → Bool) (ss : List EngineStep)
    (h : (runSteps fails ss).2 = none) :
    (runSteps fails ss).1 = ss.flatMap (stepTrace fails) := by
  induction ss with
  | nil => rfl
  | cons s rest ih =>
    cases s with
    | emit e =>
      simp only [runSteps] at h ⊢
      simp [stepTrace, ih h]
    | attempt e =>
      by_cases hf : fails e
      · simp [runSteps, hf] at h
      · simp only [runSteps, hf, if_false] at h ⊢
        simp [stepTrace, hf, ih h]
    | tryGroup es =>
      simp only [runSteps] at h ⊢
      simp [stepTrace, ih h]

/-- A run of the engine script never ends in an invalid-input error. -/
lemma runSteps_error_cases (fails : VPEvent → Bool) (ss : List EngineStep) :
    (runSteps fails ss).2 = none ∨
    ∃ e, (runSteps fails ss).2 = some (.engineFailure e) := by
  induction ss with
  | nil => exact Or.inl rfl
  | cons s rest ih =>
    cases s with
    | emit e => simpa [runSteps] using ih
    | attempt e =>
      by_cases hf : fails e
      · exact Or.inr ⟨e, by simp [runSteps, hf]⟩
      · simpa [runSteps, hf] using ih
    | tryGroup es => simpa [runSteps] using ih

/-- A try/catch block attempts a prefix of its calls. -/
lemma takeUntilFail_sublist (fails : VPEvent → Bool) (es : List VPEvent) :
    (takeUntilFail fails es).Sublist es := by
  induction es with
  | nil => simp [takeUntilFail]
  | cons e rest ih =>
    by_cases hf : fails e
    · simp [takeUntilFail, hf]
    · simpa [takeUntilFail, hf] using ih.cons₂ e

/-- Mapping into singleton lists and flattening is mapping. -/
lemma flatMap_single {α β : Type} (f : α → β) (l : List α) :
    (l.flatMap fun x => [f x]) = l.map f := by
  induction l with
  | nil => rfl
  | cons x xs ih => simp [ih]

/-- Flattening constantly empty lists yields the empty list. -/
lemma flatMap_nil_fun {α β : Type} (l : List α) :
    (l.flatMap fun _ => ([] : List β)) = [] := by
  induction l with
  | nil => rfl
  | cons x xs ih => simp [ih]

/-- Rounding the rational zero. -/
lemma jsRound_zero : jsRound 0 = 0 := by
  rw [jsRound]
  norm_num [Int.floor_eq_iff]

/-- Monotonicity of `jsRound`. -/
lemma jsRound_mono {q r : ℚ} (h : q ≤ r) : jsRound q ≤ jsRound r :=
  Int.floor_le_floor (by linarith)

/-- Rounding a value at most an integer stays at most that integer. -/
lemma jsRound_le_of_le {q : ℚ} {z : ℤ} (h : q ≤ (z : ℚ)) : jsRound q ≤ z := by
  have h1 : jsRound q < z + 1 := by
    rw [jsRound]
    apply Int.floor_lt.mpr
    push_cast
    linarith
  omega

/-- A try/catch block over percent-free calls contributes no percents. -/
lemma percents_take_deletes (fails : VPEvent → Bool) (i : Nat) :
    (takeUntilFail fails [.deleteInput i, .deleteNorm i]).filterMap progressOf = [] := by
  simp only [takeUntilFail]
  by_cases h1 : fails (.deleteInput i) <;>
    by_cases h2 : fails (.deleteNorm i) <;>
      simp [h1, h2, progressOf, takeUntilFail]

/-- The output-deletion try/catch block contributes no percents. -/
lemma percents_take_deleteOutput (fails : VPEvent → Bool) :
    (takeUntilFail fails [.deleteOutput]).filterMap progressOf = [] := by
  by_cases h1 : fails .deleteOutput <;>
    simp [takeUntilFail, h1, progressOf]

/-- Head of a per-clip percent segment. -/
lemma percentSegment_head (m : Nat) (base : ℤ) (k : ℚ) :
    ((List.range (m+1)).map
      (fun (i : ℕ) => base + jsRound ((i : ℚ) / ((m+1 : ℕ) : ℚ) * k))).head? = some base := by
  rw [List.range_succ_eq_map]
  simp [jsRound_zero]

/-- Last element of a per-clip percent segment. -/
lemma percentSegment_getLast (m : Nat) (base : ℤ) (k : ℚ) :
    ((List.range (m+1)).map
      (fun (i : ℕ) => base + jsRound ((i : ℚ) / ((m+1 : ℕ) : ℚ) * k))).getLast?
      = some (base + jsRound ((m : ℚ) / ((m+1 : ℕ) : ℚ) * k)) := by
  rw [List.range_succ, List.map_append]
  simp

/-- The last per-clip percent is bounded by `base + jsRound k`. -/
lemma percentSegment_le (m : Nat) (base : ℤ) (k : ℚ) (hk : 0 ≤ k) :
    base + jsRound ((m : ℚ) / ((m+1 : ℕ) : ℚ) * k) ≤ base + jsRound k := by
  apply add_le_add_left
  apply jsRound_mono
  have hpos : (0:ℚ) < ((m+1 : ℕ) : ℚ) := by push_cast; positivity
  have h1 : ((m : ℚ)) / ((m+1 : ℕ) : ℚ) ≤ 1 := by
    rw [div_le_one hpos]
    push_cast
    linarith
  calc (m : ℚ) / ((m+1 : ℕ) : ℚ) * k ≤ 1 * k := mul_le_mul_of_nonneg_right h1 hk
  _ = k := one_mul k

/-- A per-clip percent segment is monotone. -/
lemma percentSegment_chain' (m : Nat) (base : ℤ) (k : ℚ) (hk : 0 ≤ k) :
    List.Chain' (· ≤ ·)
      ((List.range (m+1)).map
        (fun (i : ℕ) => base + jsRound ((i : ℚ) / ((m+1 : ℕ) : ℚ) * k))) := by
  refine List.Pairwise.chain' (List.Pairwise.map _ ?_ (List.pairwise_lt_range (m+1)))
  intro a b hab
  apply add_le_add_left
  apply jsRound_mono
  have hpos : (0:ℚ) < ((m+1 : ℕ) : ℚ) := by push_cast; positivity
  have hab' : (a : ℚ) ≤ (b : ℚ) := by exact_mod_cast hab.le
  exact mul_le_mul_of_nonneg_right
    ((div_le_div_iff_of_pos_right hpos).mpr hab') hk

/-- The full percent sequence of a successful run is monotone. -/
lemma fullPercents_chain' (n : Nat) (h1 : 1 ≤ n) :
    List.Chain' (· ≤ ·) (fullPercents n) := by
  obtain ⟨m, rfl⟩ : ∃ m, n = m + 1 := ⟨n - 1, by omega⟩
  have hLle : 10 + jsRound ((m : ℚ) / ((m+1 : ℕ) : ℚ) * 15) ≤ 25 := by
    have hb := percentSegment_le m 10 15 (by norm_num)
    have h15 : jsRound (15 : ℚ) = 15 := by rw [jsRound]; norm_num [Int.floor_eq_iff]
    omega
  have hNle : 25 + jsRound ((m : ℚ) / ((m+1 : ℕ) : ℚ) * 30) ≤ 60 := by
    have hb := percentSegment_le m 25 30 (by norm_num)
    have h30 : jsRound (30 : ℚ) = 30 := by rw [jsRound]; norm_num [Int.floor_eq_iff]
    omega
  rw [fullPercents]
  simp only [loadPercents, normPercents, List.append_assoc]
  refine List.Chain'.append ?_ ?_ ?_
  · norm_num [List.chain'_cons]
  · refine List.Chain'.append (percentSegment_chain' m 10 15 (by norm_num)) ?_ ?_
    · refine List.Chain'.append (List.chain'_singleton (25:ℤ)) ?_ ?_
      · refine List.Chain'.append (percentSegment_chain' m 25 30 (by norm_num)) ?_ ?_
        · refine List.Chain'.append (List.chain'_singleton (60:ℤ)) ?_ ?_
          · by_cases hm : m + 1 = 1 <;> norm_num [hm, List.chain'_cons]
          · intro x hx y hy
            simp only [List.getLast?_singleton, Option.mem_def, Option.some.injEq] at hx
            subst hx
            by_cases hm : m + 1 = 1 <;> simp [hm] at hy <;> omega
        · intro x hx y hy
          rw [percentSegment_getLast] at hx
          simp only [Option.mem_def, Option.some.injEq] at hx
          subst hx
          simp only [List.singleton_append, List.head?_cons, Option.mem_def,
            Option.some.injEq] at hy
          subst hy
          exact hNle
      · intro x hx y hy
        simp only [List.getLast?_singleton, Option.mem_def, Option.some.injEq] at hx
        subst hx
        rw [List.head?_append, percentSegment_head] at hy
        simp only [Option.or, Option.mem_def, Option.some.injEq] at hy
        subst hy
        exact le_refl 25
    · intro x hx y hy
      rw [percentSegment_getLast] at hx
      simp only [Option.mem_def, Option.some.injEq] at hx
      subst hx
      simp only [List.singleton_append, List.head?_cons, Option.mem_def,
        Option.some.injEq] at hy
      subst hy
      exact hLle
  · intro x hx y hy
    simp only [List.getLast?_cons_cons, List.getLast?_singleton, Option.mem_def,
      Option.some.injEq] at hx
    subst hx
    rw [List.head?_append, percentSegment_head] at hy
    simp only [Option.or, Option.mem_def, Option.some.injEq] at hy
    subst hy
    exact le_refl 10

/-- The full percent sequence ends at 100. -/
lemma fullPercents_last (n : Nat) : (fullPercents n).getLast? = some 100 := by
  rw [fullPercents, List.getLast?_append]
  rfl

/-- The percents of a full (unaborted) script trace are `fullPercents`. -/
lemma composeScript_percents (n : Nat) (d : List ℚ) (s : CompositionSettings)
    (fails : VPEvent → Bool) :
    percentsOf ((composeScript n d s).flatMap (stepTrace fails)) = fullPercents n := by
  by_cases hn : n = 1
  · simp [composeScript, fullPercents, loadPercents, normPercents, hn,
      List.flatMap_append, List.flatMap_assoc, stepTrace, percentsOf,
      List.filterMap_append, List.filterMap_flatMap, progressOf,
      percents_take_deletes, percents_take_deleteOutput, flatMap_nil_fun,
      flatMap_single]
    intro a ha
    have hmem := (takeUntilFail_sublist fails _).subset ha
    simp only [List.mem_cons, List.not_mem_nil, or_false] at hmem
    rcases hmem with rfl | rfl <;> rfl
  · simp [composeScript, fullPercents, loadPercents, normPercents, hn,
      List.flatMap_append, List.flatMap_assoc, stepTrace, percentsOf,
      List.filterMap_append, List.filterMap_flatMap, progressOf,
      percents_take_deletes, percents_take_deleteOutput, flatMap_nil_fun,
      flatMap_single]
    intro a _ b hb
    have hmem := (takeUntilFail_sublist fails _).subset hb
    simp only [List.mem_cons, List.not_mem_nil, or_false] at hmem
    rcases hmem with rfl | rfl <;> rfl

/-- On success the percent sequence of `composeVideos` is `fullPercents`. -/
lemma composeVideos_success_percents (n : Nat) (d : List ℚ)
    (s : CompositionSettings) (fails : VPEvent → Bool)
    (hs : (composeVideos n d s fails).2 = none) :
    percentsOf (composeVideos n d s fails).1 = fullPercents n := by
  by_cases h0 : n = 0
  · rw [composeVideos] at hs
    simp [h0] at hs
  · by_cases h10 : 10 < n
    · rw [composeVideos] at hs
      simp [h0, h10] at hs
    · rw [composeVideos] at hs ⊢
      simp only [h0, h10, if_false] at hs ⊢
      rw [runSteps_success_trace fails _ hs, composeScript_percents]

/-- C7: calling the composition entry point with zero clips or more than 10
clips yields an invalid-input error with an empty trace — no engine work
(loading, normalization) is even attempted; for every n ∈ [1,10] the
clip-count check passes: the run never ends in an invalid-input error. -/
theorem clipCount_guard (n : Nat) (d : List ℚ) (s : CompositionSettings)
    (fails : VPEvent → Bool) :
    ((n = 0 ∨ 10 < n) →
      (composeVideos n d s fails).1 = [] ∧
      ∃ msg, (composeVideos n d s fails).2 = some (.invalidInput msg)) ∧
    (1 ≤ n → n ≤ 10 →
      ∀ msg, (composeVideos n d s fails).2 ≠ some (.invalidInput msg)) := by
  constructor
  · rintro (rfl | h)
    · exact ⟨rfl, "Nenhum vídeo fornecido", rfl⟩
    · have h0 : ¬(n = 0) := by omega
      refine ⟨?_, "Máximo de 10 vídeos", ?_⟩ <;> simp [composeVideos, h0, h]
  · intro hn1 hn10 msg
    have h0 : ¬(n = 0) := by omega
    have h10 : ¬(10 < n) := by omega
    rw [composeVideos]
    simp only [h0, h10, if_false]
    rcases runSteps_error_cases fails (composeScript n d s) with h | ⟨e, h⟩ <;>
      simp [h]

/-- Witness for C7: 11 clips are rejected with no work; 5 clips pass the
clip-count check. -/
theorem clipCount_guard_witness :
    ((composeVideos 11 [] demoSettings failNone).1 = [] ∧
      ∃ msg, (composeVideos 11 [] demoSettings failNone).2 =
        some (.invalidInput msg)) ∧
    (∀ msg, (composeVideos 5 [] demoSettings failNone).2 ≠
      some (.invalidInput msg)) :=
  ⟨(clipCount_guard 11 [] demoSettings failNone).1 (Or.inr (by norm_num)),
   (clipCount_guard 5 [] demoSettings failNone).2 (by norm_num) (by norm_num)⟩

/-- C8: as stated the claim fails: in a 2-clip run whose final render
invocation throws, the run ends in an engine failure and no deletion of any
intermediate artifact is attempted — the cleanup loop is only reached on
the success path (the source has no finally block). -/
theorem cleanup_on_failure_counterexample :
    (composeVideos 2 [10, 8] demoSettings failRender).2 =
      some (.engineFailure (.execRender
        (buildFilterChain
          (calculateClipDurations [10, 8] demoSettings.target_duration
            demoSettings.transition_duration)
          demoSettings.transition_duration
          (resolveTransition demoSettings.transition_type)))) ∧
    (composeVideos 2 [10, 8] demoSettings failRender).1.filter isDeleteEvent = [] :=
  ⟨rfl, rfl⟩

/-- C8 (amended): deletion of the per-clip intermediates is attempted on
the success path: after a successful render and read-back, each input
file's deletion is attempted, and each normalized file's deletion too
provided that clip's input-file deletion did not itself throw (the two
share one try/catch, whose failures are swallowed). On a failed run no
cleanup is attempted. -/
theorem cleanup_after_success (n : Nat) (d : List ℚ) (s : CompositionSettings)
    (fails : VPEvent → Bool) (hs : (composeVideos n d s fails).2 = none) :
    ∀ i, i < n →
      VPEvent.deleteInput i ∈ (composeVideos n d s fails).1 ∧
      (fails (VPEvent.deleteInput i) = false →
        VPEvent.deleteNorm i ∈ (composeVideos n d s fails).1) := by
  intro i hi
  have h0 : ¬(n = 0) := by omega
  by_cases h10 : 10 < n
  · rw [composeVideos] at hs
    simp [h0, h10] at hs
  · rw [composeVideos] at hs ⊢
    simp only [h0, h10, if_false] at hs ⊢
    rw [runSteps_success_trace fails _ hs]
    have hstep : EngineStep.tryGroup [.deleteInput i, .deleteNorm i] ∈
        composeScript n d s := by
      simp only [composeScript]
      apply List.mem_append_left
      apply List.mem_append_left
      apply List.mem_append_right
      exact List.mem_flatMap.mpr ⟨i, List.mem_range.mpr hi, by simp⟩
    constructor
    · refine List.mem_flatMap.mpr ⟨_, hstep, ?_⟩
      simp only [stepTrace, takeUntilFail]
      by_cases hf : fails (.deleteInput i) <;> simp [hf]
    · intro hno
      refine List.mem_flatMap.mpr ⟨_, hstep, ?_⟩
      simp only [stepTrace, takeUntilFail, hno]
      by_cases hf2 : fails (.deleteNorm i) <;> simp [hf2, takeUntilFail]

/-- Witness for the amended C8 on a successful single-clip run. -/
theorem cleanup_after_success_witness :
    VPEvent.deleteInput 0 ∈ (composeVideos 1 [10] demoSettings failNone).1 ∧
    (failNone (VPEvent.deleteInput 0) = false →
      VPEvent.deleteNorm 0 ∈ (composeVideos 1 [10] demoSettings failNone).1) :=
  cleanup_after_success 1 [10] demoSettings failNone rfl 0 (by norm_num)

/-- C9: within a successful composition run with n ∈ [1,10] clips, the
percent values passed to the progress callback (including the per-clip
interpolated values `10 + round(i/n*15)` and `25 + round(i/n*30)`) are
monotonically non-decreasing from the first invocation to the final 100. -/
theorem progress_monotone (n : Nat) (d : List ℚ) (s : CompositionSettings)
    (fails : VPEvent → Bool) (h1 : 1 ≤ n) (_h10 : n ≤ 10)
    (hs : (composeVideos n d s fails).2 = none) :
    List.Chain' (· ≤ ·) (percentsOf (composeVideos n d s fails).1) ∧
    (percentsOf (composeVideos n d s fails).1).getLast? = some 100 := by
  rw [composeVideos_success_percents n d s fails hs]
  exact ⟨fullPercents_chain' n h1, fullPercents_last n⟩

/-- Witness for C9 on a successful 2-clip run. -/
theorem progress_monotone_witness :
    List.Chain' (· ≤ ·)
      (percentsOf (composeVideos 2 [10, 8] demoSettings failNone).1) ∧
    (percentsOf (composeVideos 2 [10, 8] demoSettings failNone).1).getLast? =
      some 100 :=
  progress_monotone 2 [10, 8] demoSettings failNone (by norm_num) (by norm_num) rfl

end VideoProcessor
